import Mathlib

/-!
Verification development for the ACE Superstore sales-analysis pipeline
(`src/sales_analysis.py`).

The pipeline is embedded shallowly:
* a transaction row (one line of the sales CSV) is a `Row`; a store-location
  row is a `Store`; the merged/enriched row produced by
  `clean_and_prepare_data` is an `ERow`;
* numeric columns are rationals (`ℚ`); columns that can hold a missing value
  (NaN in pandas) are `Option`-valued;
* the profit-margin column `(Revenue / Sales) * 100` is computed with IEEE
  float semantics for division by zero, so its values live in `PVal`
  (finite, `+∞`, `-∞`, or NaN);
* pandas `groupby(key).agg(...)` is modelled by collecting the distinct key
  values in ascending order (pandas sorts group keys and drops null keys)
  and aggregating the fiber of each key;
* `sort_values` is modelled by a stable insertion sort (`sortD`);
* the fallible positional/label lookups of `generate_insights_report`
  (`.index[i]`, `.loc[key, col]`) are `Except`-valued, and `runPipeline`
  chains them, so "the run terminates with a propagated failure" is
  `runPipeline ... = .error _`.
-/

/-- Values of the pandas profit-margin column: a finite float (modelled as a
rational), `+inf`, `-inf`, or NaN. -/
inductive PVal where
  | fin (q : ℚ)
  | posInf
  | negInf
  | nan
deriving DecidableEq, Repr

/-- `pctOf a b` embeds the expression `(a / b) * 100` of
`clean_and_prepare_data` (line 56) under IEEE float semantics: when `b = 0`
the division yields `+inf`, `-inf` or NaN according to the sign of `a`, and
multiplying by `100` preserves that; no exception is raised. -/
def pctOf (a b : ℚ) : PVal :=
  if b ≠ 0 then .fin (a / b * 100)
  else if 0 < a then .posInf
  else if a < 0 then .negInf
  else .nan

/-- pandas `Series.mean()` over a column of `PVal`s (default `skipna=True`):
NaN entries are silently dropped; an infinity propagates (`+inf` and `-inf`
together give NaN); the mean of no non-NaN entries is NaN. -/
def pmean (l : List PVal) : PVal :=
  let fins := l.filterMap (fun v => match v with | .fin q => some q | _ => none)
  if l.contains PVal.posInf && l.contains PVal.negInf then .nan
  else if l.contains PVal.posInf then .posInf
  else if l.contains PVal.negInf then .negInf
  else if fins.isEmpty then .nan
  else .fin (fins.sum / fins.length)

/-- The comparison `pandas` effectively uses when sorting a float column
descending with the default `na_position='last'`: `+inf` above all finite
values, `-inf` below them, NaN last of all.  `pgeB x y` means `x` may appear
at or before `y` in such a descending sort. -/
def pgeB : PVal → PVal → Bool
  | _, .nan => true
  | .nan, _ => false
  | .posInf, _ => true
  | _, .posInf => false
  | .fin a, .fin b => decide (b ≤ a)
  | .fin _, .negInf => true
  | .negInf, .negInf => true
  | .negInf, .fin _ => false

/-- Strict version of `pgeB`: `x` must appear before `y` in a descending
sort of the margin column. -/
def pgtB (x y : PVal) : Bool := pgeB x y && !(pgeB y x)

/-- pandas `Series.mean()` over a column with missing values (the `Discount`
column): missing entries contribute to neither numerator nor denominator;
the mean of an all-missing column is missing (NaN). -/
def dmean (l : List (Option ℚ)) : Option ℚ :=
  let vs := l.filterMap id
  if vs.isEmpty then none else some (vs.sum / vs.length)

/-- `.round(2)` on a finite float value: round to two decimal places. -/
def rnd2 (q : ℚ) : ℚ := (round (q * 100) : ℤ) / 100

/-- `.round(2)` on a `PVal`: rounding NaN or an infinity is the identity. -/
def prnd2 : PVal → PVal
  | .fin q => .fin (rnd2 q)
  | v => v

/-- One row of the transactions CSV (`Ace Superstore Retail Dataset`),
with the columns the pipeline reads.  `Order Date` is kept as its raw
string (no claim depends on date arithmetic); `Category`, `Region` and
`Discount` can be missing in the data and are `Option`-valued; the
remaining identifier columns are taken to be present (non-null). -/
structure Row where
  orderId : String
  orderDate : String
  customerId : String
  productId : String
  productName : String
  category : Option String
  subCategory : String
  city : String
  postalCode : String
  region : Option String
  quantity : ℚ
  sales : ℚ
  costPrice : ℚ
  discount : Option ℚ
  orderMode : String
deriving DecidableEq, Repr

/-- One row of the store-locations CSV: city, postal code, region (the
region cell itself may be empty). -/
structure Store where
  city : String
  postalCode : String
  region : Option String
deriving DecidableEq, Repr

/-- `Revenue = Sales - Cost Price` (line 53). -/
def Row.revenue (r : Row) : ℚ := r.sales - r.costPrice

/-- `Profit Margin = (Revenue / Sales) * 100` (line 56), float semantics. -/
def Row.profitMargin (r : Row) : PVal := pctOf r.revenue r.sales

/-- `Total Revenue = Revenue * Quantity` (line 59). -/
def Row.totalRevenue (r : Row) : ℚ := r.revenue * r.quantity

/-- `Total Sales = Sales * Quantity` (line 62). -/
def Row.totalSales (r : Row) : ℚ := r.sales * r.quantity

/-- Python's `str.startswith(p)`: the characters of `p` are a prefix of the
characters of `s`. -/
def strStarts (s p : String) : Bool := p.data.isPrefixOf s.data

/-- The segment lambda of `clean_and_prepare_data` (lines 73-78), a pure
function of the `Category` cell: first match wins, a missing category falls
through every `pd.notna` guard to `'Other'`. -/
def segmentOf : Option String → String
  | none => "Other"
  | some x =>
    if strStarts x "Food" then "Food & Beverages"
    else if x = "Home" ∨ x = "Kitchen" ∨ x = "Home Appliances" then "Home & Living"
    else if x = "Health" ∨ x = "Beauty" ∨ x = "Grooming" then "Health & Beauty"
    else if strStarts x "Clothing" then "Fashion"
    else "Other"

/-- A row of the merged table produced by the `merge` at lines 65-68: the
original transaction row together with the `Region_store` column brought in
by the left join (missing when the store table had no match, or when the
matched store row's own region cell is empty). -/
structure ERow where
  base : Row
  regionStore : Option String
deriving DecidableEq, Repr

/-- The left merge of lines 65-68, on the `(City, Postal Code)` composite
key: every transaction row is kept; a row with no matching store row gets a
missing `Region_store`; a row with several matching store rows is
duplicated, once per match (pandas left-join semantics). -/
def mergeStores (df : List Row) (stores : List Store) : List ERow :=
  df.flatMap (fun r =>
    if (stores.filter (fun s => s.city == r.city && s.postalCode == r.postalCode)).isEmpty
    then [⟨r, none⟩]
    else (stores.filter (fun s => s.city == r.city && s.postalCode == r.postalCode)).map
      (fun s => ⟨r, s.region⟩))

/-- `Region_Final = Region_store.fillna(Region)` (line 71). -/
def ERow.regionFinal (e : ERow) : Option String := e.regionStore.or e.base.region

/-- `Segment` column of the merged table (lines 73-78). -/
def ERow.segment (e : ERow) : String := segmentOf e.base.category

/-- `clean_and_prepare_data`: the derived numeric columns are recorded by
the `Row` projections above; the observable table change is the left merge
with the store table. -/
def cleanAndPrepareData (df : List Row) (stores : List Store) : List ERow :=
  mergeStores df stores

/-- Spec-side restatement of §4.2's segment rules, written from the spec's
words ("first match wins: category starts with Food → Food & Beverages; one
of \x7bHome, Kitchen, Home Appliances\x7d → Home & Living; one of
\x7bHealth, Beauty, Grooming\x7d → Health & Beauty; starts with Clothing →
Fashion; otherwise Other; null maps to Other"), for comparison with the
code-side `segmentOf`. -/
def segmentSpec (c : Option String) : String :=
  match c with
  | none => "Other"
  | some x =>
    if strStarts x "Food" then "Food & Beverages"
    else if x ∈ ["Home", "Kitchen", "Home Appliances"] then "Home & Living"
    else if x ∈ ["Health", "Beauty", "Grooming"] then "Health & Beauty"
    else if strStarts x "Clothing" then "Fashion"
    else "Other"

example : segmentOf (some "Food-Snacks") = "Food & Beverages" := by decide
example : segmentOf (some "Electronics") = "Other" := by decide
example : segmentOf none = "Other" := by decide
example : pctOf 40 100 = .fin 40 := by norm_num [pctOf]

/-- Stable insert for `sortD`: `a` moves past every element strictly
"greater" than it (per `gt`) and lands before the first element that is not,
so equal elements keep their input order. -/
def insertD {α : Type} (gt : α → α → Bool) (a : α) : List α → List α
  | [] => [a]
  | b :: t => if gt b a then b :: insertD gt a t else a :: b :: t

/-- Stable insertion sort putting `gt`-greater elements first.  This models
pandas `sort_values(...)`: with `gt x y = (key x > key y)` it sorts
descending, with `gt x y = (key x < key y)` ascending.  numpy's default
`kind='quicksort'` (introsort) is NOT stable in general; it coincides with
a plain, stable insertion sort only on arrays of at most 16 elements (its
small-array cutoff).  Accordingly, the only statement below that relies on
stability — the tie-order fact about the product slices — carries an
explicit at-most-16-groups hypothesis; the sortedness facts hold for any
correct sort and do not rely on it.  All concrete tables in this file are
far below the bound. -/
def sortD {α : Type} (gt : α → α → Bool) : List α → List α
  | [] => []
  | a :: t => insertD gt a (sortD gt t)

theorem insertD_perm {α : Type} (gt : α → α → Bool) (a : α) (l : List α) :
    (insertD gt a l).Perm (a :: l) := by
  induction l with
  | nil => simp [insertD]
  | cons b t ih =>
    cases h : gt b a with
    | true =>
      simp only [insertD, h, if_true]
      exact (ih.cons b).trans (List.Perm.swap a b t)
    | false => simp [insertD, h]

theorem sortD_perm {α : Type} (gt : α → α → Bool) (l : List α) :
    (sortD gt l).Perm l := by
  induction l with
  | nil => simp [sortD]
  | cons a t ih => exact (insertD_perm gt a (sortD gt t)).trans (ih.cons a)

theorem insertD_pairwise_flip {α : Type} {gt : α → α → Bool}
    (hasym : ∀ x y, gt x y = true → gt y x = false)
    (hneg : ∀ x y z, gt x y = false → gt y z = false → gt x z = false)
    (a : α) {l : List α} (hl : l.Pairwise (fun x y => gt y x = false)) :
    (insertD gt a l).Pairwise (fun x y => gt y x = false) := by
  induction l with
  | nil => simp [insertD]
  | cons b t ih =>
    rw [List.pairwise_cons] at hl
    obtain ⟨hb, ht⟩ := hl
    cases h : gt b a with
    | true =>
      simp only [insertD, h, if_true]
      rw [List.pairwise_cons]
      refine ⟨?_, ih ht⟩
      intro z hz
      rcases List.mem_cons.mp ((insertD_perm gt a t).mem_iff.mp hz) with hz | hz
      · subst hz; exact hasym b z h
      · exact hb z hz
    | false =>
      simp only [insertD, h, Bool.false_eq_true, if_false]
      rw [List.pairwise_cons]
      refine ⟨?_, List.pairwise_cons.mpr ⟨hb, ht⟩⟩
      intro z hz
      rcases List.mem_cons.mp hz with hz | hz
      · subst hz; exact h
      · exact hneg z b a (hb z hz) h

theorem sortD_pairwise_flip {α : Type} {gt : α → α → Bool}
    (hasym : ∀ x y, gt x y = true → gt y x = false)
    (hneg : ∀ x y z, gt x y = false → gt y z = false → gt x z = false)
    (l : List α) :
    (sortD gt l).Pairwise (fun x y => gt y x = false) := by
  induction l with
  | nil => simp [sortD]
  | cons a t ih => exact insertD_pairwise_flip hasym hneg a ih

theorem insertD_pairwise_stable {α : Type} {gt : α → α → Bool} {Q : α → α → Prop}
    (a : α) {l : List α} (ha : ∀ x ∈ l, Q a x)
    (hl : l.Pairwise (fun x y => gt x y = true ∨ Q x y)) :
    (insertD gt a l).Pairwise (fun x y => gt x y = true ∨ Q x y) := by
  induction l with
  | nil => simp [insertD]
  | cons b t ih =>
    rw [List.pairwise_cons] at hl
    obtain ⟨hb, ht⟩ := hl
    cases h : gt b a with
    | true =>
      simp only [insertD, h, if_true]
      rw [List.pairwise_cons]
      refine ⟨?_, ih (fun x hx => ha x (List.mem_cons_of_mem b hx)) ht⟩
      intro z hz
      rcases List.mem_cons.mp ((insertD_perm gt a t).mem_iff.mp hz) with hz | hz
      · subst hz; exact Or.inl h
      · exact hb z hz
    | false =>
      simp only [insertD, h, Bool.false_eq_true, if_false]
      rw [List.pairwise_cons]
      exact ⟨fun z hz => Or.inr (ha z hz), List.pairwise_cons.mpr ⟨hb, ht⟩⟩

/-- Stability of `sortD`: whatever relation `Q` held pairwise along the
input (for instance "appears earlier in the input") still holds in the
output wherever the sort key did not force a strict reordering. -/
theorem sortD_pairwise_stable {α : Type} {gt : α → α → Bool} {Q : α → α → Prop}
    {l : List α} (hl : l.Pairwise Q) :
    (sortD gt l).Pairwise (fun x y => gt x y = true ∨ Q x y) := by
  induction l with
  | nil => simp [sortD]
  | cons a t ih =>
    rw [List.pairwise_cons] at hl
    exact insertD_pairwise_stable a
      (fun x hx => hl.1 x ((sortD_perm gt t).mem_iff.mp hx)) (ih hl.2)

/-- Lexicographic comparison of two character lists (the order pandas uses
on string group keys).  `String`'s own `<` is implemented by well-founded
recursion on iterators and does not reduce in the kernel, so the embedding
compares the underlying character lists directly. -/
def charsLt : List Char → List Char → Bool
  | [], [] => false
  | [], _ :: _ => true
  | _ :: _, [] => false
  | a :: as, b :: bs => decide (a < b) || (a == b && charsLt as bs)

/-- Lexicographic comparison of strings by their characters. -/
def strLtB (a b : String) : Bool := charsLt a.data b.data

theorem charsLt_asymm : ∀ x y : List Char, charsLt x y = true → charsLt y x = false
  | [], [], h => by simp [charsLt] at h
  | [], _ :: _, _ => by simp [charsLt]
  | _ :: _, [], h => by simp [charsLt] at h
  | a :: as, b :: bs, h => by
    simp only [charsLt, Bool.or_eq_true, Bool.and_eq_true, decide_eq_true_eq,
      beq_iff_eq] at h
    simp only [charsLt, Bool.or_eq_false_iff, Bool.and_eq_false_iff,
      decide_eq_false_iff_not, beq_eq_false_iff_ne, ne_eq]
    rcases h with h | ⟨rfl, h⟩
    · refine ⟨not_lt_of_lt h, Or.inl ?_⟩
      intro he
      rw [he] at h
      exact lt_irrefl a h
    · exact ⟨lt_irrefl a, Or.inr (charsLt_asymm as bs h)⟩

theorem charsLt_irrefl (x : List Char) : charsLt x x = false := by
  cases h : charsLt x x
  · rfl
  · exact absurd (charsLt_asymm x x h) (by simp [h])

theorem charsLt_negtrans :
    ∀ x y z : List Char, charsLt x y = false → charsLt y z = false → charsLt x z = false
  | [], [], z, _, h2 => h2
  | [], _ :: _, _, h1, _ => by simp [charsLt] at h1
  | _ :: _, _, [], _, _ => rfl
  | _ :: _, [], _ :: _, _, h2 => by simp [charsLt] at h2
  | a :: as, b :: bs, c :: cs, h1, h2 => by
    simp only [charsLt, Bool.or_eq_false_iff, Bool.and_eq_false_iff,
      decide_eq_false_iff_not, beq_eq_false_iff_ne, ne_eq] at h1 h2 ⊢
    obtain ⟨hab, h1r⟩ := h1
    obtain ⟨hbc, h2r⟩ := h2
    have hba : b ≤ a := le_of_not_lt hab
    have hcb : c ≤ b := le_of_not_lt hbc
    refine ⟨not_lt_of_le (hcb.trans hba), ?_⟩
    by_cases hac : a = c
    · have haleb : a ≤ b := by rw [hac]; exact hcb
      have hab2 : a = b := le_antisymm haleb hba
      have hbc2 : b = c := by rw [← hab2]; exact hac
      right
      rcases h1r with h1r | h1r
      · exact absurd hab2 h1r
      · rcases h2r with h2r | h2r
        · exact absurd hbc2 h2r
        · exact charsLt_negtrans as bs cs h1r h2r
    · exact Or.inl hac

theorem charsLt_conn :
    ∀ x y : List Char, charsLt x y = false → charsLt y x = false → x = y
  | [], [], _, _ => rfl
  | [], _ :: _, h1, _ => by simp [charsLt] at h1
  | _ :: _, [], _, h2 => by simp [charsLt] at h2
  | a :: as, b :: bs, h1, h2 => by
    simp only [charsLt, Bool.or_eq_false_iff, Bool.and_eq_false_iff,
      decide_eq_false_iff_not, beq_eq_false_iff_ne, ne_eq] at h1 h2
    obtain ⟨hab, h1r⟩ := h1
    obtain ⟨hba, h2r⟩ := h2
    have he : a = b := le_antisymm (le_of_not_lt hba) (le_of_not_lt hab)
    subst he
    rcases h1r with h1r | h1r
    · exact absurd rfl h1r
    · rcases h2r with h2r | h2r
      · exact absurd rfl h2r
      · rw [charsLt_conn as bs h1r h2r]

theorem strLtB_asymm (x y : String) (h : strLtB x y = true) : strLtB y x = false :=
  charsLt_asymm _ _ h

theorem strLtB_negtrans (x y z : String) (h1 : strLtB x y = false)
    (h2 : strLtB y z = false) : strLtB x z = false :=
  charsLt_negtrans _ _ _ h1 h2

theorem strLtB_conn (x y : String) (h1 : strLtB x y = false)
    (h2 : strLtB y x = false) : x = y := by
  cases x; cases y
  exact congrArg String.mk (charsLt_conn _ _ h1 h2)

/-- The sorted, duplicate-free list of group keys of a pandas
`groupby(..., sort=True)`, for a given strict comparison `lt`. -/
def keysSorted {α : Type} [DecidableEq α] (lt : α → α → Bool) (l : List α) : List α :=
  sortD lt l.dedup

theorem mem_keysSorted {α : Type} [DecidableEq α] {lt : α → α → Bool}
    {l : List α} {a : α} : a ∈ keysSorted lt l ↔ a ∈ l := by
  rw [keysSorted, (sortD_perm _ _).mem_iff, List.mem_dedup]

theorem nodup_keysSorted {α : Type} [DecidableEq α] (lt : α → α → Bool) (l : List α) :
    (keysSorted lt l).Nodup := by
  rw [keysSorted, (sortD_perm _ _).nodup_iff]
  exact l.nodup_dedup

/-- For a comparison that is asymmetric, negatively transitive and
connected, the key list of a `groupby` is strictly increasing. -/
theorem keysSorted_pairwise_lt {α : Type} [DecidableEq α] {lt : α → α → Bool}
    (hasym : ∀ x y, lt x y = true → lt y x = false)
    (hneg : ∀ x y z, lt x y = false → lt y z = false → lt x z = false)
    (hconn : ∀ x y, lt x y = false → lt y x = false → x = y)
    (l : List α) : (keysSorted lt l).Pairwise (fun a b => lt a b = true) := by
  have hs : (keysSorted lt l).Pairwise (fun x y => lt y x = false) :=
    sortD_pairwise_flip hasym hneg l.dedup
  have hnd : (keysSorted lt l).Nodup := nodup_keysSorted lt l
  refine (hs.and hnd).imp ?_
  intro a b hab
  cases h : lt a b
  · exact absurd (hconn b a hab.1 h) (Ne.symm hab.2)
  · rfl

/-- A row of `regional_summary` / `segment_summary` (lines 111-118 and
124-131): `agg` of sum of `Total Sales`, sum of `Total Revenue`, mean of
`Discount`, count of `Order ID`, all passed through `.round(2)`.  The
count counts non-null `Order ID` cells; `Row.orderId` is modelled as always
present, so it is the group size. -/
structure RSum where
  key : String
  totalSales : ℚ
  totalRevenue : ℚ
  avgDiscount : Option ℚ
  orderCount : ℕ
deriving DecidableEq, Repr

/-- The aggregate record of one `groupby` group for the region and segment
summaries. -/
def mkRSum (k : String) (rows : List ERow) : RSum where
  key := k
  totalSales := rnd2 ((rows.map (fun e => e.base.totalSales)).sum)
  totalRevenue := rnd2 ((rows.map (fun e => e.base.totalRevenue)).sum)
  avgDiscount := (dmean (rows.map (fun e => e.base.discount))).map rnd2
  orderCount := rows.length

/-- `groupby('Region_Final')` (line 111): distinct non-null resolved
regions in ascending order (pandas sorts group keys and drops null keys),
each with its aggregate. -/
def regionalGroups (df : List ERow) : List RSum :=
  (keysSorted strLtB (df.filterMap ERow.regionFinal)).map
    (fun k => mkRSum k (df.filter (fun e => e.regionFinal == some k)))

/-- `regional_summary` (lines 111-118): region aggregates sorted by
`Total Revenue` descending. -/
def regionalSummary (df : List ERow) : List RSum :=
  sortD (fun a b => decide (b.totalRevenue < a.totalRevenue)) (regionalGroups df)

/-- `groupby('Segment')` (line 124): the segment column is never null. -/
def segmentGroups (df : List ERow) : List RSum :=
  (keysSorted strLtB (df.map ERow.segment)).map
    (fun k => mkRSum k (df.filter (fun e => e.segment == k)))

/-- `segment_summary` (lines 124-131): segment aggregates sorted by
`Total Revenue` descending. -/
def segmentSummary (df : List ERow) : List RSum :=
  sortD (fun a b => decide (b.totalRevenue < a.totalRevenue)) (segmentGroups df)

/-- A row of `category_margins` (lines 170-176). -/
structure CSum where
  key : String
  profitMargin : PVal
  totalRevenue : ℚ
  totalSales : ℚ
  orderCount : ℕ
deriving DecidableEq, Repr

/-- The aggregate record of one category group (lines 170-175): mean of
`Profit Margin` (float semantics), sums, count, `.round(2)` throughout. -/
def mkCSum (k : String) (rows : List ERow) : CSum where
  key := k
  profitMargin := prnd2 (pmean (rows.map (fun e => e.base.profitMargin)))
  totalRevenue := rnd2 ((rows.map (fun e => e.base.totalRevenue)).sum)
  totalSales := rnd2 ((rows.map (fun e => e.base.totalSales)).sum)
  orderCount := rows.length

/-- `groupby('Category')` (line 170): distinct non-null categories in
ascending order, each aggregated by `mkCSum`. -/
def categoryGroups (df : List ERow) : List CSum :=
  (keysSorted strLtB (df.filterMap (fun e => e.base.category))).map
    (fun k => mkCSum k (df.filter (fun e => e.base.category == some k)))

/-- `category_margins` (lines 170-176): category aggregates sorted by mean
`Profit Margin` descending (NaN means are placed last, pandas
`na_position='last'`). -/
def categoryMargins (df : List ERow) : List CSum :=
  sortD (fun a b => pgtB a.profitMargin b.profitMargin) (categoryGroups df)

/-- A row of `product_revenue` (lines 145-150), keyed by
`(Product Name, Category)`. -/
structure ProdSum where
  name : String
  category : String
  totalRevenue : ℚ
  totalSales : ℚ
  quantity : ℚ
  profitMargin : PVal
deriving DecidableEq, Repr

/-- Strict lexicographic comparison of `(Product Name, Category)` group
keys, the order in which pandas sorts a two-level `groupby` index. -/
def pairLt (a b : String × String) : Bool :=
  strLtB a.1 b.1 || (a.1 == b.1 && strLtB a.2 b.2)

/-- The distinct `(Product Name, Category)` keys of
`groupby(['Product Name', 'Category'])` (line 145) in ascending
lexicographic order; rows with a null category are dropped by the groupby. -/
def productKeys (df : List ERow) : List (String × String) :=
  keysSorted pairLt (df.filterMap
    (fun e => (e.base.category).map (fun c => (e.base.productName, c))))

/-- The aggregate record of one product group (lines 145-150). -/
def mkProdSum (k : String × String) (rows : List ERow) : ProdSum where
  name := k.1
  category := k.2
  totalRevenue := rnd2 ((rows.map (fun e => e.base.totalRevenue)).sum)
  totalSales := rnd2 ((rows.map (fun e => e.base.totalSales)).sum)
  quantity := rnd2 ((rows.map (fun e => e.base.quantity)).sum)
  profitMargin := prnd2 (pmean (rows.map (fun e => e.base.profitMargin)))

/-- `product_revenue` (lines 145-150), rows in group-key order. -/
def productGroups (df : List ERow) : List ProdSum :=
  (productKeys df).map (fun k => mkProdSum k
    (df.filter (fun e => e.base.productName == k.1 && e.base.category == some k.2)))

/-- `top_products` (line 153): sort descending by `Total Revenue`, `head(5)`. -/
def topProducts (df : List ERow) : List ProdSum :=
  (sortD (fun a b => decide (b.totalRevenue < a.totalRevenue)) (productGroups df)).take 5

/-- `bottom_products` (line 158): sort ascending by `Total Revenue`, `head(5)`. -/
def bottomProducts (df : List ERow) : List ProdSum :=
  (sortD (fun a b => decide (a.totalRevenue < b.totalRevenue)) (productGroups df)).take 5

/-- A row of `order_mode_analysis` (lines 189-200). -/
structure OSum where
  key : String
  totalSales : ℚ
  totalRevenue : ℚ
  orderCount : ℕ
  avgDiscount : Option ℚ
  salesPct : ℚ
  revenuePct : ℚ
deriving DecidableEq, Repr

/-- The distinct order modes (channels) of `groupby('Order Mode')`
(line 189), ascending. -/
def orderModeKeys (df : List ERow) : List String :=
  keysSorted strLtB (df.map (fun e => e.base.orderMode))

/-- The `agg(...).round(2)` part of `analyze_order_mode` (lines 189-194)
for one channel; the percentage columns are filled in afterwards. -/
def orderModeAgg (df : List ERow) (k : String) : OSum :=
  let rows := df.filter (fun e => e.base.orderMode == k)
  { key := k
    totalSales := rnd2 ((rows.map (fun e => e.base.totalSales)).sum)
    totalRevenue := rnd2 ((rows.map (fun e => e.base.totalRevenue)).sum)
    orderCount := rows.length
    avgDiscount := (dmean (rows.map (fun e => e.base.discount))).map rnd2
    salesPct := 0
    revenuePct := 0 }

/-- The aggregated channel table before the percentage columns (the value
of `order_mode_analysis` after line 194): one row per distinct order mode. -/
def orderModeBase (df : List ERow) : List OSum :=
  (orderModeKeys df).map (orderModeAgg df)

/-- `order_mode_analysis` (lines 189-200): the channel aggregate plus the
`Sales %` and `Revenue %` columns, each computed from the (already rounded)
aggregate column divided by that column's own sum, times 100, rounded to
two decimals.  (When a column's sum is zero pandas would yield NaN shares;
the share facts proved below all assume a non-zero sum, the denominator
the code divides by, so the model's `0`-convention for that corner is
never relied on.) -/
def orderModeAnalysis (df : List ERow) : List OSum :=
  (orderModeBase df).map (fun o => { o with
    salesPct := rnd2 (o.totalSales / ((orderModeBase df).map OSum.totalSales).sum * 100)
    revenuePct :=
      rnd2 (o.totalRevenue / ((orderModeBase df).map OSum.totalRevenue).sum * 100) })

/-- `.loc[k, ...]` row lookup in the channel aggregate: pandas raises
`KeyError` when `k` is not in the index. -/
def locMode (t : List OSum) (k : String) : Option OSum :=
  t.find? (fun o => o.key == k)

/-- The fallible accesses of `generate_insights_report`, in source order,
in the `Except` monad (pandas raises `IndexError` / `KeyError`; nothing in
the script catches, so an error terminates the run): `.index[0]` of the
regional (line 322), segment (line 342) and category (line 380) summaries;
`.loc['Online'/'In-Store', ...]` on the channel aggregate (lines 397 and
405 — both lines look up the same two index labels, so one lookup per
label is modelled); `.index[1]` of the regional summary (line 412) and of
the category summary (line 417).  The returned value is `online_vs_store`
(line 397), the difference of the two channels' sales shares. -/
def generateInsightsReport (df : List ERow) : Except String ℚ :=
  match (regionalSummary df)[0]? with
  | none => .error "IndexError: regional index 0"
  | some _ =>
  match (segmentSummary df)[0]? with
  | none => .error "IndexError: segment index 0"
  | some _ =>
  match (categoryMargins df)[0]? with
  | none => .error "IndexError: category index 0"
  | some _ =>
  match locMode (orderModeAnalysis df) "Online" with
  | none => .error "KeyError: Online"
  | some onRow =>
  match locMode (orderModeAnalysis df) "In-Store" with
  | none => .error "KeyError: In-Store"
  | some inRow =>
  match (regionalSummary df)[1]? with
  | none => .error "IndexError: regional index 1"
  | some _ =>
  match (categoryMargins df)[1]? with
  | none => .error "IndexError: category index 1"
  | some _ => .ok (onRow.salesPct - inRow.salesPct)

/-- `main`: prepare the data, run the aggregations (all total), and build
the report; the run succeeds iff no report access raises. -/
def runPipeline (sales : List Row) (stores : List Store) : Except String ℚ :=
  generateInsightsReport (cleanAndPrepareData sales stores)

/-- Whether an `Except` computation succeeded. -/
def exOk {α : Type} : Except String α → Bool
  | .ok _ => true
  | .error _ => false

/-- A default transaction row used to build concrete test tables; its
numbers are the worked example of spec §8 (sales 100, cost 60,
quantity 3). -/
def baseRow : Row where
  orderId := "O0"
  orderDate := "2025-01-01"
  customerId := "C0"
  productId := "P0"
  productName := "Item"
  category := some "Electronics"
  subCategory := "Misc"
  city := "London"
  postalCode := "N1"
  region := some "North"
  quantity := 3
  sales := 100
  costPrice := 60
  discount := some (1/10)
  orderMode := "Online"

example : baseRow.revenue = 40 := by norm_num [Row.revenue, baseRow]
example : baseRow.totalRevenue = 120 := by norm_num [Row.totalRevenue, Row.revenue, baseRow]
example : baseRow.totalSales = 300 := by norm_num [Row.totalSales, baseRow]
example : baseRow.profitMargin = .fin 40 := by norm_num [Row.profitMargin, Row.revenue, pctOf, baseRow]

/-- C3: Segment classification is a pure, deterministic function of the
category value alone, applied per record with first-match-wins priority,
and agrees with the spec's rule table (`segmentSpec`); in particular
"Food-Snacks" maps to "Food & Beverages", "Electronics" to "Other" and a
missing category to "Other". -/
theorem segment_rules_hold :
    (∀ c : Option String, segmentOf c = segmentSpec c) ∧
    (∀ e : ERow, e.segment = segmentOf e.base.category) ∧
    segmentOf (some "Food-Snacks") = "Food & Beverages" ∧
    segmentOf (some "Electronics") = "Other" ∧
    segmentOf none = "Other" := by
  refine ⟨fun c => ?_, fun e => rfl, by decide, by decide, rfl⟩
  cases c with
  | none => rfl
  | some x => simp [segmentOf, segmentSpec]

/-- C4: for a row with non-negative cost price (and a non-negative
quantity, as quantities of a valid transaction are),
`Total Revenue ≤ Total Sales`. -/
theorem total_revenue_le_total_sales (r : Row)
    (hc : 0 ≤ r.costPrice) (hq : 0 ≤ r.quantity) :
    r.totalRevenue ≤ r.totalSales := by
  unfold Row.totalRevenue Row.totalSales Row.revenue
  exact mul_le_mul_of_nonneg_right (sub_le_self _ hc) hq

/-- Witness for C4 at the spec §8 example row (sales 100, cost 60,
quantity 3): the hypotheses hold and 120 ≤ 300. -/
theorem total_revenue_le_total_sales_witness :
    0 ≤ baseRow.costPrice ∧ 0 ≤ baseRow.quantity ∧
    baseRow.totalRevenue ≤ baseRow.totalSales :=
  ⟨by norm_num [baseRow], by norm_num [baseRow],
    total_revenue_le_total_sales baseRow (by norm_num [baseRow]) (by norm_num [baseRow])⟩

/-- A left merge never invents rows: the transaction part of every merged
row is one of the input transaction rows. -/
theorem mem_mergeStores_base {df : List Row} {stores : List Store} {e : ERow}
    (h : e ∈ mergeStores df stores) : e.base ∈ df := by
  unfold mergeStores at h
  rw [List.mem_flatMap] at h
  obtain ⟨r, hr, he⟩ := h
  by_cases hf : (stores.filter
      (fun s => s.city == r.city && s.postalCode == r.postalCode)).isEmpty
  · rw [if_pos hf] at he
    simp only [List.mem_singleton] at he
    rw [he]
    exact hr
  · rw [if_neg hf] at he
    rw [List.mem_map] at he
    obtain ⟨s, _, hs⟩ := he
    rw [← hs]
    exact hr

/-- Every transaction row survives the left merge (possibly several
times). -/
theorem mergeStores_preserves (df : List Row) (stores : List Store) :
    ∀ r ∈ df, ∃ e ∈ mergeStores df stores, e.base = r := by
  intro r hr
  unfold mergeStores
  by_cases hf : (stores.filter
      (fun s => s.city == r.city && s.postalCode == r.postalCode)).isEmpty
  · refine ⟨⟨r, none⟩, ?_, rfl⟩
    rw [List.mem_flatMap]
    exact ⟨r, hr, by simp [hf]⟩
  · have hne : stores.filter
        (fun s => s.city == r.city && s.postalCode == r.postalCode) ≠ [] :=
      fun hnil => hf (by rw [hnil]; rfl)
    obtain ⟨s, hs⟩ := List.exists_mem_of_ne_nil _ hne
    refine ⟨⟨r, s.region⟩, ?_, rfl⟩
    rw [List.mem_flatMap]
    refine ⟨r, hr, ?_⟩
    simp only [if_neg hf]
    exact List.mem_map_of_mem _ hs

/-- C2 counterexample: a transaction whose own `Region` cell is empty and
whose `(City, Postal Code)` has no store match resolves to a null
`Region_Final`, so not every enriched row carries a non-null resolved
region. -/
theorem region_resolution_counterexample :
    ((cleanAndPrepareData [{ baseRow with region := none }] []).all
      (fun e => e.regionFinal.isSome)) = false := by
  with_unfolding_all rfl

/-- C2 (amended): region resolution is deterministic, and for transactions
whose own region field is non-null it is total: every enriched row has a
non-null `Region_Final`, and whenever the join found a store row with a
non-null region, `Region_Final` is that store region.  (A transaction with
a null region and no store match resolves to null, which is what the
counterexample exhibits.) -/
theorem region_resolution_amended (df : List Row) (stores : List Store)
    (h : ∀ r ∈ df, r.region.isSome) :
    ∀ e ∈ cleanAndPrepareData df stores,
      e.regionFinal.isSome ∧
      (∀ v, e.regionStore = some v → e.regionFinal = some v) := by
  intro e he
  constructor
  · have hb : (e.base.region).isSome := h e.base (mem_mergeStores_base he)
    unfold ERow.regionFinal
    cases hrs : e.regionStore with
    | none => simpa [Option.or] using hb
    | some v => simp [Option.or]
  · intro v hv
    unfold ERow.regionFinal
    rw [hv]
    rfl

/-- Witness for C2 (amended) on a one-row table with a non-null region and
no store match: the resolved region is present. -/
theorem region_resolution_amended_witness :
    (∀ r ∈ [baseRow], r.region.isSome) ∧
    ∀ e ∈ cleanAndPrepareData [baseRow] [],
      e.regionFinal.isSome ∧
      (∀ v, e.regionStore = some v → e.regionFinal = some v) :=
  ⟨by decide, region_resolution_amended [baseRow] [] (by decide)⟩

/-- C6 counterexample: two store rows sharing the `(City, Postal Code)`
key of the single transaction row make the left merge emit two enriched
rows, so the enriched table is not "exactly the original transaction
rows". -/
theorem left_join_counterexample :
    ([baseRow] : List Row).length = 1 ∧
    (cleanAndPrepareData [baseRow]
      [⟨"London", "N1", some "R1"⟩, ⟨"London", "N1", some "R2"⟩]).length = 2 := by
  constructor
  · rfl
  · with_unfolding_all rfl

/-- C6 (amended): the merge has left-join semantics — every transaction
row is preserved even with no store match — and when the store table's
`(City, Postal Code)` keys are distinct, the enriched table consists of
exactly the original transaction rows, in order.  (With duplicate store
keys a matching transaction row is emitted once per match, as the
counterexample exhibits.) -/
theorem left_join_amended (df : List Row) (stores : List Store)
    (h : stores.Pairwise (fun s t => s.city ≠ t.city ∨ s.postalCode ≠ t.postalCode)) :
    (∀ r ∈ df, ∃ e ∈ cleanAndPrepareData df stores, e.base = r) ∧
    (cleanAndPrepareData df stores).map ERow.base = df := by
  refine ⟨mergeStores_preserves df stores, ?_⟩
  unfold cleanAndPrepareData mergeStores
  induction df with
  | nil => rfl
  | cons r t ih =>
    rw [List.flatMap_cons, List.map_append, ih]
    have hone : ((if (stores.filter
            (fun s => s.city == r.city && s.postalCode == r.postalCode)).isEmpty
        then [(⟨r, none⟩ : ERow)]
        else (stores.filter
            (fun s => s.city == r.city && s.postalCode == r.postalCode)).map
          (fun s => ⟨r, s.region⟩)).map ERow.base) = [r] := by
      by_cases hf : (stores.filter
          (fun s => s.city == r.city && s.postalCode == r.postalCode)).isEmpty
      · rw [if_pos hf]
        rfl
      · rw [if_neg hf]
        cases hfs : stores.filter
            (fun s => s.city == r.city && s.postalCode == r.postalCode) with
        | nil => rw [hfs] at hf; exact absurd rfl hf
        | cons s rest =>
          cases rest with
          | nil => rfl
          | cons s2 rest2 =>
            exfalso
            have hp : (stores.filter
                (fun s => s.city == r.city && s.postalCode == r.postalCode)).Pairwise
                (fun s t => s.city ≠ t.city ∨ s.postalCode ≠ t.postalCode) :=
              h.sublist (List.filter_sublist stores)
            rw [hfs, List.pairwise_cons] at hp
            have h12 := hp.1 s2 (List.mem_cons_self s2 rest2)
            have hs1 : s ∈ stores.filter
                (fun s => s.city == r.city && s.postalCode == r.postalCode) := by
              rw [hfs]; exact List.mem_cons_self _ _
            have hs2 : s2 ∈ stores.filter
                (fun s => s.city == r.city && s.postalCode == r.postalCode) := by
              rw [hfs]; exact List.mem_cons_of_mem _ (List.mem_cons_self _ _)
            have hp1 := List.of_mem_filter hs1
            have hp2 := List.of_mem_filter hs2
            simp only [Bool.and_eq_true, beq_iff_eq] at hp1 hp2
            rcases h12 with h12 | h12
            · exact h12 (hp1.1.trans hp2.1.symm)
            · exact h12 (hp1.2.trans hp2.2.symm)
    rw [hone]
    rfl

/-- Witness for C6 (amended): one transaction, one matching store row with
a unique key; the enriched table is exactly the original row. -/
theorem left_join_amended_witness :
    ([(⟨"London", "N1", some "R1"⟩ : Store)].Pairwise
      (fun s t => s.city ≠ t.city ∨ s.postalCode ≠ t.postalCode)) ∧
    ((∀ r ∈ [baseRow], ∃ e ∈ cleanAndPrepareData [baseRow]
        [⟨"London", "N1", some "R1"⟩], e.base = r) ∧
      (cleanAndPrepareData [baseRow] [⟨"London", "N1", some "R1"⟩]).map ERow.base
        = [baseRow]) :=
  ⟨List.pairwise_singleton _ _,
    left_join_amended [baseRow] [⟨"London", "N1", some "R1"⟩]
      (List.pairwise_singleton _ _)⟩

theorem pgeB_total (x y : PVal) : pgeB x y = true ∨ pgeB y x = true := by
  cases x <;> cases y <;> simp [pgeB] <;> exact le_total _ _

theorem pgeB_trans (x y z : PVal) (h1 : pgeB x y = true) (h2 : pgeB y z = true) :
    pgeB x z = true := by
  cases x <;> cases y <;> cases z <;> simp_all [pgeB] <;> exact le_trans h2 h1

theorem pgtB_asymm (x y : PVal) (h : pgtB x y = true) : pgtB y x = false := by
  unfold pgtB at h ⊢
  rw [Bool.and_eq_true, Bool.not_eq_true'] at h
  rw [h.2, Bool.false_and]

theorem pgtB_negtrans (x y z : PVal) (h1 : pgtB x y = false) (h2 : pgtB y z = false) :
    pgtB x z = false := by
  have k1 : pgeB y x = true := by
    cases hyx : pgeB y x with
    | true => rfl
    | false =>
      exfalso
      rcases pgeB_total x y with h | h
      · unfold pgtB at h1
        rw [h, hyx] at h1
        simp at h1
      · rw [hyx] at h
        exact Bool.noConfusion h
  have k2 : pgeB z y = true := by
    cases hzy : pgeB z y with
    | true => rfl
    | false =>
      exfalso
      rcases pgeB_total y z with h | h
      · unfold pgtB at h2
        rw [h, hzy] at h2
        simp at h2
      · rw [hzy] at h
        exact Bool.noConfusion h
  unfold pgtB
  rw [pgeB_trans z y x k2 k1]
  simp

/-- After a `sortD` descending by a rational-valued key, the key is
non-increasing across adjacent rows. -/
theorem sortD_key_desc {α : Type} (key : α → ℚ) (l : List α) :
    (sortD (fun a b => decide (key b < key a)) l).Pairwise
      (fun x y => key y ≤ key x) := by
  have h := @sortD_pairwise_flip α (fun a b => decide (key b < key a))
    (fun x y h => by
      simp only [decide_eq_true_eq] at h
      simpa [decide_eq_false_iff_not] using not_lt_of_lt h)
    (fun x y z h1 h2 => by
      simp only [decide_eq_false_iff_not] at h1 h2 ⊢
      exact fun hc => absurd
        (lt_of_lt_of_le hc ((le_of_not_lt h1).trans (le_of_not_lt h2))) (lt_irrefl _))
    l
  exact h.imp (fun {a b} hab => by
    simpa [decide_eq_false_iff_not, not_lt] using hab)

/-- C9: each aggregate is sorted by its designated key, non-increasing
across adjacent rows: the region and segment summaries descending by
summed `Total Revenue`, the category summary descending by mean
`Profit Margin` (in the NaN-last descending order `pgeB`). -/
theorem aggregates_sorted (df : List ERow) :
    ((regionalSummary df).Pairwise (fun a b => b.totalRevenue ≤ a.totalRevenue)) ∧
    ((segmentSummary df).Pairwise (fun a b => b.totalRevenue ≤ a.totalRevenue)) ∧
    ((categoryMargins df).Pairwise
      (fun a b => pgeB a.profitMargin b.profitMargin = true)) := by
  refine ⟨sortD_key_desc RSum.totalRevenue _, sortD_key_desc RSum.totalRevenue _, ?_⟩
  have h := @sortD_pairwise_flip CSum (fun a b => pgtB a.profitMargin b.profitMargin)
    (fun x y hxy => pgtB_asymm _ _ hxy)
    (fun x y z h1 h2 => pgtB_negtrans _ _ _ h1 h2)
    (categoryGroups df)
  exact h.imp (fun {a b} hab => by
    cases hh : pgeB a.profitMargin b.profitMargin with
    | true => rfl
    | false =>
      exfalso
      rcases pgeB_total a.profitMargin b.profitMargin with h2 | h2
      · rw [hh] at h2
        exact Bool.noConfusion h2
      · unfold pgtB at hab
        rw [h2, hh] at hab
        simp at hab)

/-- C10: in a grouped summary, the mean-discount aggregate silently skips
rows with a missing discount: such a row counts toward the group's order
count but toward neither numerator nor denominator of the average, so if
every present discount in the group equals `d`, the computed mean is `d`
(stored as `rnd2 d` after the `.round(2)` the code applies to the whole
aggregate), however many missing-discount rows the group holds. -/
theorem discount_mean_excludes_null (rows : List ERow) (k : String) (d : ℚ)
    (hall : ∀ e ∈ rows, ∀ v, e.base.discount = some v → v = d)
    (hex : ∃ e ∈ rows, (e.base.discount).isSome) :
    dmean (rows.map (fun e => e.base.discount)) = some d ∧
    (mkRSum k rows).avgDiscount = some (rnd2 d) ∧
    (mkRSum k rows).orderCount = rows.length := by
  have hvs : ∀ v ∈ (rows.map (fun e => e.base.discount)).filterMap id, v = d := by
    intro v hv
    rw [List.mem_filterMap] at hv
    obtain ⟨o, ho, hov⟩ := hv
    rw [List.mem_map] at ho
    obtain ⟨e, he, heo⟩ := ho
    exact hall e he v (heo.trans hov)
  have hne : (rows.map (fun e => e.base.discount)).filterMap id ≠ [] := by
    obtain ⟨e, he, hs⟩ := hex
    rw [Option.isSome_iff_exists] at hs
    obtain ⟨v, hv⟩ := hs
    intro hnil
    have hmem : v ∈ (rows.map (fun e => e.base.discount)).filterMap id :=
      List.mem_filterMap.mpr ⟨some v, List.mem_map.mpr ⟨e, he, hv⟩, rfl⟩
    rw [hnil] at hmem
    exact List.not_mem_nil v hmem
  have hrep := List.eq_replicate_of_mem hvs
  have hlen : ((rows.map (fun e => e.base.discount)).filterMap id).length ≠ 0 := by
    intro h0
    exact hne (List.eq_nil_of_length_eq_zero h0)
  have hsum : ((rows.map (fun e => e.base.discount)).filterMap id).sum =
      (((rows.map (fun e => e.base.discount)).filterMap id).length : ℚ) * d := by
    conv_lhs => rw [hrep]
    rw [List.sum_replicate, nsmul_eq_mul]
  have hmean : dmean (rows.map (fun e => e.base.discount)) = some d := by
    unfold dmean
    rw [if_neg (by simpa [List.isEmpty_iff] using hne)]
    rw [hsum, mul_div_cancel_left₀ d (by exact_mod_cast hlen)]
  refine ⟨hmean, ?_, rfl⟩
  unfold mkRSum
  simp only [hmean]
  rfl

/-- A two-row group for the C10 witness: one discount of 10%, one missing
discount. -/
def c10Rows : List ERow :=
  [⟨{ baseRow with discount := some (1/10) }, none⟩,
   ⟨{ baseRow with discount := none }, none⟩]

/-- Witness for C10: with one 10%-discount row and one missing-discount
row, the mean is 10% and the order count is 2. -/
theorem discount_mean_excludes_null_witness :
    (∃ e ∈ c10Rows, (e.base.discount).isSome) ∧
    dmean (c10Rows.map (fun e => e.base.discount)) = some (1/10) ∧
    (mkRSum "North" c10Rows).avgDiscount = some (rnd2 (1/10)) ∧
    (mkRSum "North" c10Rows).orderCount = c10Rows.length := by
  have hall : ∀ e ∈ c10Rows, ∀ v, e.base.discount = some v → v = (1/10 : ℚ) := by
    intro e he v hv
    simp only [c10Rows, List.mem_cons, List.not_mem_nil, or_false] at he
    rcases he with rfl | rfl
    · exact (Option.some.inj hv).symm
    · exact Option.noConfusion hv
  have hex : ∃ e ∈ c10Rows, (e.base.discount).isSome :=
    ⟨⟨{ baseRow with discount := some (1/10) }, none⟩, List.mem_cons_self _ _, rfl⟩
  obtain ⟨h1, h2, h3⟩ := discount_mean_excludes_null c10Rows "North" (1/10) hall hex
  exact ⟨hex, h1, h2, h3⟩

/-- Two-decimal rounding moves a value by at most half a hundredth. -/
theorem rnd2_err (q : ℚ) : |rnd2 q - q| ≤ 1/200 := by
  unfold rnd2
  have h := abs_sub_round (q * 100)
  have h2 : ((round (q * 100) : ℤ) : ℚ)/100 - q = -((q * 100 - ((round (q * 100) : ℤ) : ℚ))/100) := by
    ring
  rw [h2, abs_neg, abs_div, abs_of_pos (show (0:ℚ) < 100 by norm_num)]
  linarith

theorem sum_map_rnd2_err (l : List ℚ) :
    |(l.map rnd2).sum - l.sum| ≤ (l.length : ℚ) * (1/200) := by
  induction l with
  | nil => simp
  | cons a t ih =>
    simp only [List.map_cons, List.sum_cons, List.length_cons]
    have key : rnd2 a + (t.map rnd2).sum - (a + t.sum)
        = (rnd2 a - a) + ((t.map rnd2).sum - t.sum) := by ring
    rw [key]
    calc |(rnd2 a - a) + ((t.map rnd2).sum - t.sum)|
        ≤ |rnd2 a - a| + |(t.map rnd2).sum - t.sum| := abs_add _ _
      _ ≤ 1/200 + (t.length : ℚ) * (1/200) := add_le_add (rnd2_err a) ih
      _ = ((t.length + 1 : ℕ) : ℚ) * (1/200) := by push_cast; ring

/-- The exact (un-rounded) shares of a column in its own sum always add up
to 100%. -/
theorem shares_sum (xs : List ℚ) (h : xs.sum ≠ 0) :
    (xs.map (fun x => x / xs.sum * 100)).sum = 100 := by
  have hf : (fun x : ℚ => x / xs.sum * 100) = fun x : ℚ => x * (100 / xs.sum) :=
    funext fun x => by rw [div_mul_eq_mul_div, mul_div_assoc]
  rw [hf, List.sum_map_mul_right, List.map_id', ← mul_div_assoc,
    mul_div_cancel_left₀ _ h]

/-- Rounding each share to two decimals moves the total off 100% by at most
half a hundredth per row. -/
theorem rounded_shares_sum (xs : List ℚ) (h : xs.sum ≠ 0) :
    |(xs.map (fun x => rnd2 (x / xs.sum * 100))).sum - 100|
      ≤ (xs.length : ℚ) * (1/200) := by
  have hmm : xs.map (fun x => rnd2 (x / xs.sum * 100))
      = (xs.map (fun x => x / xs.sum * 100)).map rnd2 := by
    rw [List.map_map]
    rfl
  rw [hmm]
  have herr := sum_map_rnd2_err (xs.map (fun x => x / xs.sum * 100))
  rw [shares_sum xs h, List.length_map] at herr
  exact herr

/-- C7: in the channel aggregate, each channel's `Sales %` share of the
grand total is a percentage rounded to two decimals, and across all
channels the shares sum to 100% up to rounding error (at most half a
hundredth per channel), whenever the aggregated `Total Sales` column has a
non-zero sum (the denominator the code divides by). -/
theorem channel_shares_sum_100 (df : List Row) (stores : List Store)
    (h : ((orderModeAnalysis (cleanAndPrepareData df stores)).map OSum.totalSales).sum ≠ 0) :
    |((orderModeAnalysis (cleanAndPrepareData df stores)).map OSum.salesPct).sum - 100|
      ≤ ((orderModeAnalysis (cleanAndPrepareData df stores)).length : ℚ) * (1/200) := by
  set e := cleanAndPrepareData df stores
  have hts : (orderModeAnalysis e).map OSum.totalSales
      = (orderModeBase e).map OSum.totalSales := by
    unfold orderModeAnalysis
    rw [List.map_map]
    rfl
  have hps : (orderModeAnalysis e).map OSum.salesPct
      = ((orderModeBase e).map OSum.totalSales).map
        (fun x => rnd2 (x / ((orderModeBase e).map OSum.totalSales).sum * 100)) := by
    unfold orderModeAnalysis
    rw [List.map_map, List.map_map]
    rfl
  have hlen : (orderModeAnalysis e).length
      = ((orderModeBase e).map OSum.totalSales).length := by
    unfold orderModeAnalysis
    rw [List.length_map, List.length_map]
  rw [hts] at h
  rw [hps, hlen]
  exact rounded_shares_sum _ h

/-- A two-channel table for the C7 witness. -/
def c7Df : List Row := [baseRow, { baseRow with orderId := "O1", orderMode := "In-Store" }]

/-- Witness for C7 on a concrete two-channel table: the grand total is
non-zero and the rounded shares sum to 100% within the bound. -/
theorem channel_shares_sum_100_witness :
    ((orderModeAnalysis (cleanAndPrepareData c7Df [])).map OSum.totalSales).sum ≠ 0 ∧
    |((orderModeAnalysis (cleanAndPrepareData c7Df [])).map OSum.salesPct).sum - 100|
      ≤ ((orderModeAnalysis (cleanAndPrepareData c7Df [])).length : ℚ) * (1/200) :=
  ⟨by with_unfolding_all decide,
    channel_shares_sum_100 c7Df [] (by with_unfolding_all decide)⟩

/-- Every row of the channel aggregate is keyed by an order mode occurring
in the input transactions. -/
theorem orderModeAnalysis_key_mem {df : List Row} {stores : List Store} {o : OSum}
    (h : o ∈ orderModeAnalysis (cleanAndPrepareData df stores)) :
    o.key ∈ df.map Row.orderMode := by
  unfold orderModeAnalysis at h
  rw [List.mem_map] at h
  obtain ⟨b, hb, hbo⟩ := h
  have hkey : o.key = b.key := by rw [← hbo]
  unfold orderModeBase at hb
  rw [List.mem_map] at hb
  obtain ⟨k, hk, hkb⟩ := hb
  have hbk : b.key = k := by rw [← hkb]; rfl
  rw [hkey, hbk]
  unfold orderModeKeys at hk
  have hk2 : k ∈ (cleanAndPrepareData df stores).map (fun e => e.base.orderMode) :=
    mem_keysSorted.mp hk
  rw [List.mem_map] at hk2
  obtain ⟨er, her, hker⟩ := hk2
  rw [← hker]
  exact List.mem_map_of_mem _ (mem_mergeStores_base her)

/-- C8: the pipeline assumes both channels "Online" and "In-Store" exist in
the data; if either order mode is absent from the input transactions, the
report generation raises (a `KeyError` on the `.loc` lookup at line 397)
and the failure propagates uncaught: the run does not succeed. -/
theorem missing_channel_fails (df : List Row) (stores : List Store)
    (h : "Online" ∉ df.map Row.orderMode ∨ "In-Store" ∉ df.map Row.orderMode) :
    exOk (runPipeline df stores) = false := by
  have hloc : ∀ k, k ∉ df.map Row.orderMode →
      locMode (orderModeAnalysis (cleanAndPrepareData df stores)) k = none := by
    intro k hk
    unfold locMode
    rw [List.find?_eq_none]
    intro o ho hbeq
    rw [beq_iff_eq] at hbeq
    exact hk (hbeq ▸ orderModeAnalysis_key_mem ho)
  rcases h with h | h
  · have hn := hloc "Online" h
    unfold runPipeline generateInsightsReport
    rw [hn]
    split
    · rfl
    split
    · rfl
    split
    · rfl
    rfl
  · have hn := hloc "In-Store" h
    unfold runPipeline generateInsightsReport
    rw [hn]
    split
    · rfl
    split
    · rfl
    split
    · rfl
    split
    · rfl
    rfl

/-- Witness for C8: a table whose only channel is "Online" makes the run
fail. -/
theorem missing_channel_fails_witness :
    ("In-Store" ∉ [baseRow].map Row.orderMode) ∧
    exOk (runPipeline [baseRow] []) = false :=
  ⟨by decide, missing_channel_fails [baseRow] [] (Or.inr (by decide))⟩

/-- A three-row table containing a `Sales = 0` row, for the C1
counterexample: it exercises the division by zero and still lets the whole
pipeline (both channels, two regions, two categories) finish. -/
def c1Df : List Row :=
  [{ baseRow with sales := 0, costPrice := 0, quantity := 1 },
   { baseRow with orderId := "O1", costPrice := 50, quantity := 1 },
   { baseRow with
      orderId := "O2"
      orderMode := "In-Store"
      region := some "South"
      category := some "Food-Snacks"
      productName := "Snack" }]

/-- C1 counterexample: on a table with a `Sales = 0` row the margin
computation yields NaN instead of raising, the full pipeline run succeeds
(no propagated failure), and the per-category mean margin silently skips
the NaN row (Electronics' mean is the 50% of its one well-defined row). -/
theorem margin_divzero_counterexample :
    Row.profitMargin { baseRow with sales := 0, costPrice := 0, quantity := 1 }
      = PVal.nan ∧
    exOk (runPipeline c1Df []) = true ∧
    (categoryMargins (cleanAndPrepareData c1Df [])).map
      (fun c => (c.key, c.profitMargin))
      = [("Electronics", PVal.fin 50), ("Food-Snacks", PVal.fin 40)] := by
  refine ⟨by with_unfolding_all rfl, by with_unfolding_all rfl,
    by with_unfolding_all rfl⟩

/-- C1 (amended): division by zero in the margin computation is NOT
handled and does NOT terminate the run: a row with `Sales = 0` gets margin
`+inf`, `-inf` or NaN by the sign of its revenue (NaN exactly when the cost
is also 0), and a NaN margin is silently skipped by the downstream
`groupby` mean, contributing to neither numerator nor denominator. -/
theorem margin_divzero_amended (r : Row) (l : List PVal) (h0 : r.sales = 0) :
    (r.profitMargin = if r.costPrice < 0 then PVal.posInf
      else if 0 < r.costPrice then PVal.negInf else PVal.nan) ∧
    pmean (PVal.nan :: l) = pmean l := by
  constructor
  · unfold Row.profitMargin pctOf Row.revenue
    rw [h0]
    have ha : (0:ℚ) - r.costPrice = -r.costPrice := by ring
    rw [ha]
    split_ifs <;> first
      | rfl
      | (exact absurd rfl (by assumption))
      | (exfalso; linarith)
  · unfold pmean
    simp [List.filterMap_cons, List.contains_cons]

/-- Witness for C1 (amended) at the concrete zero-sales row and a
one-element margin list. -/
theorem margin_divzero_amended_witness :
    ({ baseRow with sales := 0, costPrice := 0, quantity := 1 } : Row).sales = 0 ∧
    (({ baseRow with sales := 0, costPrice := 0, quantity := 1 } : Row).profitMargin
      = if ({ baseRow with sales := 0, costPrice := 0, quantity := 1 } : Row).costPrice < 0
        then PVal.posInf
        else if 0 < ({ baseRow with sales := 0, costPrice := 0, quantity := 1 } : Row).costPrice
        then PVal.negInf else PVal.nan) ∧
    pmean (PVal.nan :: [PVal.fin 50]) = pmean [PVal.fin 50] :=
  ⟨rfl, margin_divzero_amended _ [PVal.fin 50] rfl⟩

theorem strLtB_irrefl (x : String) : strLtB x x = false := charsLt_irrefl _

theorem pairLt_asymm (x y : String × String) (h : pairLt x y = true) :
    pairLt y x = false := by
  unfold pairLt at h ⊢
  rw [Bool.or_eq_true, Bool.and_eq_true, beq_iff_eq] at h
  rw [Bool.or_eq_false_iff, Bool.and_eq_false_iff]
  rcases h with h | ⟨he, h2⟩
  · refine ⟨strLtB_asymm _ _ h, Or.inl ?_⟩
    rw [beq_eq_false_iff_ne]
    intro hyx
    rw [hyx] at h
    rw [strLtB_irrefl x.1] at h
    exact Bool.noConfusion h
  · refine ⟨?_, Or.inr (strLtB_asymm _ _ h2)⟩
    rw [← he]
    exact strLtB_irrefl x.1

theorem pairLt_negtrans (x y z : String × String) (h1 : pairLt x y = false)
    (h2 : pairLt y z = false) : pairLt x z = false := by
  unfold pairLt at h1 h2 ⊢
  rw [Bool.or_eq_false_iff, Bool.and_eq_false_iff] at h1 h2
  obtain ⟨ha, hb⟩ := h1
  obtain ⟨hc, hd⟩ := h2
  rw [Bool.or_eq_false_iff, Bool.and_eq_false_iff]
  refine ⟨strLtB_negtrans _ _ _ ha hc, ?_⟩
  by_cases hxz : x.1 = z.1
  · right
    have hcx : strLtB y.1 x.1 = false := by rw [hxz]; exact hc
    have hxy : x.1 = y.1 := strLtB_conn _ _ ha hcx
    have hyz : y.1 = z.1 := by rw [← hxy]; exact hxz
    have hb2 : strLtB x.2 y.2 = false := by
      rcases hb with hb | hb
      · rw [beq_eq_false_iff_ne] at hb
        exact absurd hxy hb
      · exact hb
    have hd2 : strLtB y.2 z.2 = false := by
      rcases hd with hd | hd
      · rw [beq_eq_false_iff_ne] at hd
        exact absurd hyz hd
      · exact hd
    exact strLtB_negtrans _ _ _ hb2 hd2
  · left
    rw [beq_eq_false_iff_ne]
    exact hxz

theorem pairLt_conn (x y : String × String) (h1 : pairLt x y = false)
    (h2 : pairLt y x = false) : x = y := by
  unfold pairLt at h1 h2
  rw [Bool.or_eq_false_iff, Bool.and_eq_false_iff] at h1 h2
  obtain ⟨ha, hb⟩ := h1
  obtain ⟨hc, hd⟩ := h2
  have h1eq : x.1 = y.1 := strLtB_conn _ _ ha hc
  have h2eq : x.2 = y.2 := by
    have hb2 : strLtB x.2 y.2 = false := by
      rcases hb with hb | hb
      · rw [beq_eq_false_iff_ne] at hb
        exact absurd h1eq hb
      · exact hb
    have hd2 : strLtB y.2 x.2 = false := by
      rcases hd with hd | hd
      · rw [beq_eq_false_iff_ne] at hd
        exact absurd h1eq.symm hd
      · exact hd
    exact strLtB_conn _ _ hb2 hd2
  exact Prod.ext h1eq h2eq

/-- A two-product table with equal revenues whose input order ("B" first)
is the reverse of the group-key order ("A" first). -/
def c5Df : List Row :=
  [{ baseRow with productName := "B", category := some "X" },
   { baseRow with orderId := "O1", productName := "A", category := some "X" }]

/-- C5 counterexample: the two products tie on summed revenue (120 each)
and appear in the input as B before A, yet both the top-5 and the bottom-5
slices list A before B — the tie is broken by the sorted group key of the
`groupby`, not by input order. -/
theorem products_tie_counterexample :
    (c5Df.map Row.productName = ["B", "A"]) ∧
    ((productGroups (cleanAndPrepareData c5Df [])).map ProdSum.totalRevenue
      = [120, 120]) ∧
    ((topProducts (cleanAndPrepareData c5Df [])).map ProdSum.name = ["A", "B"]) ∧
    ((bottomProducts (cleanAndPrepareData c5Df [])).map ProdSum.name = ["A", "B"]) := by
  refine ⟨rfl, by with_unfolding_all rfl, by with_unfolding_all rfl,
    by with_unfolding_all rfl⟩

/-- C5 (amended): the top-5 and bottom-5 slices are deterministic, but a
tie between groups of equal summed revenue does not follow input
appearance order; on a table with at most 16 product groups — where
numpy's default sort is its small-array insertion sort and hence stable —
the tie follows the ascending lexicographic order of the
`(product, category)` group key that the `groupby` emits: adjacent slice
rows are either strictly ordered by revenue or tied and in key order.
(Beyond 16 groups the unstable quicksort gives no tie-order guarantee.) -/
theorem products_tie_order (df : List ERow)
    (hsmall : (productGroups df).length ≤ 16) :
    ((topProducts df).Pairwise (fun a b => b.totalRevenue < a.totalRevenue ∨
      pairLt (a.name, a.category) (b.name, b.category) = true)) ∧
    ((bottomProducts df).Pairwise (fun a b => a.totalRevenue < b.totalRevenue ∨
      pairLt (a.name, a.category) (b.name, b.category) = true)) := by
  have hkeys : (productKeys df).Pairwise (fun a b => pairLt a b = true) :=
    keysSorted_pairwise_lt pairLt_asymm pairLt_negtrans pairLt_conn _
  have hgroups : (productGroups df).Pairwise
      (fun p q => pairLt (p.name, p.category) (q.name, q.category) = true) := by
    unfold productGroups
    rw [List.pairwise_map]
    exact hkeys
  constructor
  · have hstable := @sortD_pairwise_stable ProdSum
      (fun a b => decide (b.totalRevenue < a.totalRevenue))
      (fun p q => pairLt (p.name, p.category) (q.name, q.category) = true)
      (productGroups df) hgroups
    have htake := List.Pairwise.sublist (List.take_sublist 5 _) hstable
    exact htake.imp (fun {a b} hab => by
      rcases hab with hab | hab
      · exact Or.inl (of_decide_eq_true hab)
      · exact Or.inr hab)
  · have hstable := @sortD_pairwise_stable ProdSum
      (fun a b => decide (a.totalRevenue < b.totalRevenue))
      (fun p q => pairLt (p.name, p.category) (q.name, q.category) = true)
      (productGroups df) hgroups
    have htake := List.Pairwise.sublist (List.take_sublist 5 _) hstable
    exact htake.imp (fun {a b} hab => by
      rcases hab with hab | hab
      · exact Or.inl (of_decide_eq_true hab)
      · exact Or.inr hab)

/-- Witness for C5 (amended) on the concrete two-group table: it is well
inside the 16-group insertion-sort regime and its slices satisfy the
revenue-or-key pairwise order. -/
theorem products_tie_order_witness :
    (productGroups (cleanAndPrepareData c5Df [])).length ≤ 16 ∧
    (((topProducts (cleanAndPrepareData c5Df [])).Pairwise
        (fun a b => b.totalRevenue < a.totalRevenue ∨
          pairLt (a.name, a.category) (b.name, b.category) = true)) ∧
      ((bottomProducts (cleanAndPrepareData c5Df [])).Pairwise
        (fun a b => a.totalRevenue < b.totalRevenue ∨
          pairLt (a.name, a.category) (b.name, b.category) = true))) :=
  ⟨by with_unfolding_all decide,
    products_tie_order (cleanAndPrepareData c5Df []) (by with_unfolding_all decide)⟩
